import Mathlib

/-!
# Verification of the Energy & Carbon Accounting Engine

Shallow embedding, in Lean 4, of the Python sources of the repository
(`energy_calculator.py`, `database.py`, `llm_service.py`,
`report_generator.py`, `two_agents_version/agent_monitor.py`), together
with theorems settling the frozen claims about the natural-language
specification.

Modelling conventions:
* Python `datetime` values are rational numbers of seconds on a time axis
  whose origin is some midnight; `dt.hour` becomes
  `(⌊t / 3600⌋ % 24 : ℤ)` (with `%` the Euclidean `Int.emod`, always in
  `[0, 24)`), which agrees with Python for every representable datetime.
* Python `float` arithmetic is modelled by exact rational arithmetic `ℚ`.
* `dict`s become association lists in insertion order; fallible parsing
  (ISO timestamps, durations) becomes `Option`/sum-like values reflecting
  the `try/except` structure of the source.
-/

/-! ## Time model (`datetime` as rational seconds) -/

/-- Python `dt.hour` for a datetime modelled as `t` seconds past a midnight. -/
def hourOf (t : ℚ) : ℤ := ⌊t / 3600⌋ % 24

/-- Python `dt.replace(minute=0, second=0, microsecond=0)`: floor to the hour. -/
def hourFloor (t : ℚ) : ℚ := 3600 * (⌊t / 3600⌋ : ℚ)

/-! ## Power tables (`EnergyCalculator.POWER_CONSUMPTION`) -/

/-- Source table `POWER_CONSUMPTION[rt]['production']`. -/
def prodWatts (rt : String) : ℚ :=
  if rt = "server" then 100
  else if rt = "workstation" then 60
  else if rt = "automate" then 300
  else 0

/-- Source table `POWER_CONSUMPTION[rt]['night']`. -/
def nightWatts (rt : String) : ℚ :=
  if rt = "server" then 70 else 0

/-- Source table `PRODUCTION_INVENTORY`, in source (insertion) order. -/
def inventoryList : List (String × ℤ) :=
  [("server", 10), ("workstation", 20), ("automate", 5), ("internet_gateway", 1)]

/-! ## `EnergyCalculator._calculate_base_energy` -/

/-- One pass of the hour-by-hour integration loop of
`_calculate_base_energy` (the non-gateway branch), with explicit fuel.
The source loop always terminates because `current` strictly increases to
an hour boundary at each step; `fuelFor` below always provides enough
steps, so the `0`-fuel case is unreachable from `calcBaseEnergy`. -/
def baseEnergyAux (P N endT : ℚ) : ℕ → ℚ → ℚ
  | 0, _ => 0
  | fuel + 1, current =>
    if current < endT then
      let power := if 8 ≤ hourOf current ∧ hourOf current < 20 then P else N
      let nextHour := min (hourFloor current + 3600) endT
      power * ((nextHour - current) / 3600) + baseEnergyAux P N endT fuel nextHour
    else 0

/-- Enough loop steps for the window `[s, e)`: one possibly partial first
step, then at most `⌈(e−s)/3600⌉` aligned steps. -/
def fuelFor (s e : ℚ) : ℕ := (⌈(e - s) / 3600⌉).toNat + 2

/-- Source method `EnergyCalculator._calculate_base_energy(resource_type, start, end)`. -/
def calcBaseEnergy (rt : String) (startT endT : ℚ) : ℚ :=
  if rt = "internet_gateway" then 50 * ((endT - startT) / 3600)
  else baseEnergyAux (prodWatts rt) (nightWatts rt) endT (fuelFor startT endT) startT

/-! ### Hour-sum machinery for the integration proofs -/

/-- Power drawn during the hour of day of hour-index `h` (production
window `[8, 20)` by hour of day). -/
def hp (P N : ℚ) (h : ℤ) : ℚ := if 8 ≤ h % 24 ∧ h % 24 < 20 then P else N

/-- Sum of `hp` over `n` consecutive hour indices starting at `q`. -/
def hps (P N : ℚ) (q : ℤ) : ℕ → ℚ
  | 0 => 0
  | n + 1 => hp P N q + hps P N (q + 1) n

theorem hps_add (P N : ℚ) (q : ℤ) (m n : ℕ) :
    hps P N q (m + n) = hps P N q m + hps P N (q + m) n := by
  induction m generalizing q with
  | zero => simp [hps]
  | succ m ih =>
    have : m + 1 + n = (m + n) + 1 := by omega
    rw [this]
    simp only [hps, ih (q + 1)]
    push_cast
    ring_nf

theorem hp_congr (P N : ℚ) {a b : ℤ} (h : a % 24 = b % 24) :
    hp P N a = hp P N b := by
  simp only [hp, h]

theorem hps24_shift (P N : ℚ) (q : ℤ) :
    hps P N (q + 1) 24 = hps P N q 24 := by
  have h1 : hps P N q (24 + 1) = hps P N q 24 + hp P N (q + 24) := by
    rw [hps_add]
    simp [hps]
  have h2 : hps P N q (24 + 1) = hp P N q + hps P N (q + 1) 24 := rfl
  have h3 : hp P N (q + 24) = hp P N q := hp_congr P N (by omega)
  rw [h3] at h1
  have := h1.symm.trans h2
  linarith

theorem hps24_const (P N : ℚ) (q : ℤ) : hps P N q 24 = hps P N 0 24 := by
  induction q using Int.induction_on with
  | hz => rfl
  | hp k ih => rw [hps24_shift P N k]; exact ih
  | hn k ih =>
    have h := hps24_shift P N (-(k : ℤ) - 1)
    have e : (-(k : ℤ) - 1 + 1) = -(k : ℤ) := by ring
    rw [e] at h
    rw [← h]
    exact ih

theorem hps24_zero (P N : ℚ) : hps P N 0 24 = 12 * P + 12 * N := by
  show hps P N 0 24 = 12 * P + 12 * N
  simp only [hps, hp]
  norm_num
  ring

theorem hps24 (P N : ℚ) (q : ℤ) : hps P N q 24 = 12 * P + 12 * N := by
  rw [hps24_const, hps24_zero]

theorem hps168 (P N : ℚ) (q : ℤ) : hps P N q 168 = 84 * P + 84 * N := by
  have h : (168 : ℕ) = 24 + (24 + (24 + (24 + (24 + (24 + 24))))) := rfl
  rw [h, hps_add, hps_add, hps_add, hps_add, hps_add, hps_add]
  rw [hps24, hps24, hps24, hps24, hps24, hps24, hps24]
  ring

theorem hourOf_int (q : ℤ) : hourOf (3600 * (q : ℚ)) = q % 24 := by
  unfold hourOf
  have h : (3600 * (q : ℚ)) / 3600 = (q : ℚ) := by ring
  rw [h, Int.floor_intCast]

theorem hourFloor_int (q : ℤ) : hourFloor (3600 * (q : ℚ)) = 3600 * (q : ℚ) := by
  unfold hourFloor
  have h : (3600 * (q : ℚ)) / 3600 = (q : ℚ) := by ring
  rw [h, Int.floor_intCast]

theorem baseEnergyAux_stop (P N endT c : ℚ) (f : ℕ) (h : endT ≤ c) :
    baseEnergyAux P N endT f c = 0 := by
  cases f with
  | zero => rfl
  | succ f => simp [baseEnergyAux, not_lt.mpr h]

theorem baseEnergyAux_aligned (P N : ℚ) (endT : ℚ) (n : ℕ) :
    ∀ (f : ℕ) (q : ℤ), 3600 * ((q : ℚ) + n) ≤ endT →
    baseEnergyAux P N endT (n + f) (3600 * q) =
      hps P N q n + baseEnergyAux P N endT f (3600 * ((q : ℚ) + n)) := by
  induction n with
  | zero => intro f q _; simp [hps]
  | succ n ih =>
    intro f q hle
    have hcur : (3600 * (q : ℚ)) < endT := by
      have : (3600 * (q : ℚ)) < 3600 * ((q : ℚ) + (n + 1 : ℕ)) := by
        push_cast; nlinarith [Nat.cast_nonneg (α := ℚ) n]
      linarith
    have hnext : 3600 * ((q : ℚ) + 1) ≤ endT := by
      have : 3600 * ((q : ℚ) + 1) ≤ 3600 * ((q : ℚ) + (n + 1 : ℕ)) := by
        push_cast; nlinarith [Nat.cast_nonneg (α := ℚ) n]
      linarith
    have hstep : n + 1 + f = (n + f) + 1 := by omega
    rw [hstep]
    show (if (3600 * (q : ℚ)) < endT then _ else 0) = _
    rw [if_pos hcur]
    simp only [hourOf_int, hourFloor_int]
    have hmin : min (3600 * (q : ℚ) + 3600) endT = 3600 * ((q : ℚ) + 1) := by
      rw [min_eq_left (by linarith)]
      ring
    rw [hmin]
    have hq1 : (3600 : ℚ) * ((q : ℚ) + 1) = 3600 * ((q + 1 : ℤ) : ℚ) := by push_cast; ring
    have harg : 3600 * (((q + 1 : ℤ) : ℚ) + (n : ℕ)) = 3600 * ((q : ℚ) + (n + 1 : ℕ)) := by
      push_cast; ring
    rw [hq1, ih f (q + 1) (by rw [harg]; exact hle), harg]
    show (if 8 ≤ q % 24 ∧ q % 24 < 20 then P else N) * _ + _ = hps P N q (n + 1) + _
    have hcontrib : (3600 * ((q + 1 : ℤ) : ℚ) - 3600 * (q : ℚ)) / 3600 = 1 := by
      push_cast; ring
    rw [hcontrib]
    show hp P N q * 1 + _ = (hp P N q + hps P N (q + 1) n) + _
    ring

theorem baseEnergyAux_lastPartial (P N : ℚ) (q : ℤ) (r : ℚ) (f : ℕ)
    (h0 : 0 < r) (h1 : r < 3600) :
    baseEnergyAux P N (3600 * (q : ℚ) + r) (f + 1) (3600 * q) = hp P N q * (r / 3600) := by
  show (if (3600 * (q : ℚ)) < 3600 * (q : ℚ) + r then _ else 0) = _
  rw [if_pos (by linarith)]
  simp only [hourOf_int, hourFloor_int]
  have hmin : min (3600 * (q : ℚ) + 3600) (3600 * (q : ℚ) + r) = 3600 * (q : ℚ) + r := by
    rw [min_eq_right (by linarith)]
  rw [hmin, baseEnergyAux_stop P N _ _ f le_rfl]
  show hp P N q * _ + 0 = _
  ring_nf

theorem fuelFor_week (s : ℚ) : fuelFor s (s + 604800) = 170 := by
  unfold fuelFor
  have h : (s + 604800 - s) / 3600 = (168 : ℚ) := by ring_nf
  rw [h]
  decide

/-- The integration loop of `_calculate_base_energy` over any 7-day
window sums to exactly `84` production hours worth of `P` plus `84`
night hours worth of `N`, regardless of the start instant. -/
theorem baseEnergyAux_week (P N : ℚ) (s : ℚ) :
    baseEnergyAux P N (s + 604800) (fuelFor s (s + 604800)) s = 84 * P + 84 * N := by
  rw [fuelFor_week]
  set q : ℤ := ⌊s / 3600⌋ with hq
  have hql : 3600 * (q : ℚ) ≤ s := by
    have := Int.floor_le (s / 3600)
    rw [← hq] at this
    linarith [(mul_le_mul_left (show (0:ℚ) < 3600 by norm_num)).mpr this]
  have hqu : s < 3600 * ((q : ℚ) + 1) := by
    have := Int.lt_floor_add_one (s / 3600)
    rw [← hq] at this
    nlinarith
  set r : ℚ := s - 3600 * (q : ℚ) with hr
  have hr0 : 0 ≤ r := by simp [hr]; linarith
  have hr1 : r < 3600 := by simp [hr]; linarith
  rcases eq_or_lt_of_le hr0 with hz | hpos
  · -- start aligned to an hour boundary: 168 full steps
    have hs : s = 3600 * (q : ℚ) := by simp [hr] at hz; linarith
    rw [show (170 : ℕ) = 168 + 2 from rfl, hs]
    have hle : 3600 * ((q : ℚ) + (168 : ℕ)) ≤ 3600 * (q : ℚ) + 604800 := by
      push_cast; linarith
    rw [baseEnergyAux_aligned P N _ 168 2 q hle, hps168,
      baseEnergyAux_stop P N _ _ 2 (by push_cast; linarith)]
    ring
  · -- unaligned: one partial first step, 167 full steps, one partial last
    have hs : s = 3600 * (q : ℚ) + r := by rw [hr]; ring
    have hcur : s < s + 604800 := by linarith
    rw [show (170 : ℕ) = 169 + 1 from rfl]
    show (if s < s + 604800 then _ else 0) = _
    rw [if_pos hcur]
    have hfl : ⌊s / 3600⌋ = q := hq.symm
    simp only [hourOf, hourFloor, hfl]
    have hmin : min (3600 * (q : ℚ) + 3600) (s + 604800) = 3600 * ((q : ℚ) + 1) := by
      rw [min_eq_left (by linarith)]
      ring
    rw [hmin]
    have hq1 : (3600 : ℚ) * ((q : ℚ) + 1) = 3600 * ((q + 1 : ℤ) : ℚ) := by push_cast; ring
    have hmid : 3600 * (((q + 1 : ℤ) : ℚ) + (167 : ℕ)) ≤ s + 604800 := by
      rw [hs]; push_cast; linarith
    rw [hq1, show (169 : ℕ) = 167 + 2 from rfl,
      baseEnergyAux_aligned P N _ 167 2 (q + 1) hmid]
    have hendT : s + 604800 = 3600 * ((q + 168 : ℤ) : ℚ) + r := by
      rw [hs]; push_cast; ring
    have harg : 3600 * (((q + 1 : ℤ) : ℚ) + (167 : ℕ)) = 3600 * ((q + 168 : ℤ) : ℚ) := by
      push_cast; ring
    rw [harg, hendT, show (2 : ℕ) = 1 + 1 from rfl,
      baseEnergyAux_lastPartial P N (q + 168) r 1 hpos hr1]
    have hp168 : hp P N (q + 168) = hp P N q := hp_congr P N (by omega)
    rw [hp168]
    show (if 8 ≤ q % 24 ∧ q % 24 < 20 then P else N) * _ + (hps P N (q + 1) 167 + _) = _
    show hp P N q * _ + (hps P N (q + 1) 167 + hp P N q * (r / 3600)) = _
    have hsum : hp P N q * ((3600 * ((q + 1 : ℤ) : ℚ) - s) / 3600) +
        (hps P N (q + 1) 167 + hp P N q * (r / 3600)) =
        hp P N q + hps P N (q + 1) 167 := by
      rw [hs]; push_cast; field_simp; ring
    rw [hsum]
    have h168 : hps P N q 168 = hp P N q + hps P N (q + 1) 167 := rfl
    rw [← h168, hps168]

/-- Base energy of one server over any 7-day window: exactly `14280` Wh. -/
theorem calcBaseEnergy_server_week (s : ℚ) :
    calcBaseEnergy "server" s (s + 604800) = 14280 := by
  unfold calcBaseEnergy
  rw [if_neg (by decide), baseEnergyAux_week]
  simp +decide only [prodWatts, nightWatts]
  norm_num

theorem calcBaseEnergy_workstation_week (s : ℚ) :
    calcBaseEnergy "workstation" s (s + 604800) = 5040 := by
  unfold calcBaseEnergy
  rw [if_neg (by decide), baseEnergyAux_week]
  simp +decide only [prodWatts, nightWatts]
  norm_num

theorem calcBaseEnergy_automate_week (s : ℚ) :
    calcBaseEnergy "automate" s (s + 604800) = 25200 := by
  unfold calcBaseEnergy
  rw [if_neg (by decide), baseEnergyAux_week]
  simp +decide only [prodWatts, nightWatts]
  norm_num

theorem calcBaseEnergy_gateway_week (s : ℚ) :
    calcBaseEnergy "internet_gateway" s (s + 604800) = 8400 := by
  unfold calcBaseEnergy
  rw [if_pos rfl]
  ring_nf

/-! ## Events and `EnergyCalculator._adjust_energy_for_events` -/

/-- Result of parsing one optional ISO timestamp string in the source's
`try/except` block: the field may be absent/empty, present but
unparsable (`ValueError`), or parsed to an instant. -/
inductive TsParse where
  | missing : TsParse
  | bad : TsParse
  | ok : ℚ → TsParse
deriving DecidableEq

/-- One event as consumed by `_adjust_energy_for_events`:
`durationEvent` is `int(float(duration_event))` when that succeeds
(`none` on `ValueError`/`TypeError`), and the two timestamp fields carry
their parse outcome. -/
structure EventRec where
  eventType : String
  durationEvent : Option ℤ
  tsStart : TsParse
  tsEnd : TsParse
deriving DecidableEq

/-- Python's substring test `pat in s`. -/
def strContains (s pat : String) : Bool :=
  s.toList.tails.any (fun t => pat.toList.isPrefixOf t)

/-- Variable `power_during_event` of `_adjust_energy_for_events`: gateway power or
the production/night power at the hour of the event's start. -/
def eventPower (rt : String) (eventStart : ℚ) : ℚ :=
  if rt = "internet_gateway" then 50
  else if 8 ≤ hourOf eventStart ∧ hourOf eventStart < 20 then prodWatts rt
  else nightWatts rt

/-- Signed energy adjustment contributed by one event (0 when the event
is skipped by a `continue` in the source: unparsable duration, missing or
unparsable start, unparsable end, or start outside `[start, end]`). -/
def eventDelta (rt : String) (startT endT : ℚ) (ev : EventRec) : ℚ :=
  match ev.durationEvent with
  | none => 0
  | some d =>
    match ev.tsStart with
    | TsParse.missing => 0
    | TsParse.bad => 0
    | TsParse.ok es =>
      match ev.tsEnd with
      | TsParse.bad => 0
      | _ =>
        if es < startT ∨ endT < es then 0
        else
          let durationHours : ℚ := (d : ℚ) / 3600
          let power := eventPower rt es
          if strContains ev.eventType "maintenance_stop" ∨ strContains ev.eventType "failure" then
            -(power * durationHours)
          else if ev.eventType = "cpu_overflow" ∨ ev.eventType = "cpu_overload" then
            power * durationHours * (25 / 100)
          else if strContains ev.eventType "update" then
            power * durationHours * (10 / 100)
          else 0

/-- Source method `EnergyCalculator._adjust_energy_for_events(base_energy,
resource_type, events, start_date, end_date)`. -/
def adjustEnergyForEvents (baseEnergy : ℚ) (rt : String) (events : List EventRec)
    (startT endT : ℚ) : ℚ :=
  max 0 (events.foldl (fun acc ev => acc + eventDelta rt startT endT ev) baseEnergy)

/-- Helper: the single-event adjustment of a participating stop-class
event (duration parsed, start parsed and inside the window, end not
malformed) subtracts `power * duration_hours` from the accumulator. -/
theorem eventDelta_stop (rt : String) (s e t : ℚ) (et : String) (d : ℤ) (tsE : TsParse)
    (hstop : strContains et "maintenance_stop" = true ∨ strContains et "failure" = true)
    (hE : tsE ≠ TsParse.bad) (h1 : s ≤ t) (h2 : t ≤ e) :
    eventDelta rt s e ⟨et, some d, TsParse.ok t, tsE⟩ =
      -(eventPower rt t * ((d : ℚ) / 3600)) := by
  cases tsE with
  | bad => exact absurd rfl hE
  | missing =>
    show (if t < s ∨ e < t then 0 else _) = _
    rw [if_neg (by push_neg; exact ⟨h1, h2⟩)]
    simp only
    rw [if_pos (by simpa using hstop)]
  | ok u =>
    show (if t < s ∨ e < t then 0 else _) = _
    rw [if_neg (by push_neg; exact ⟨h1, h2⟩)]
    simp only
    rw [if_pos (by simpa using hstop)]

/-- C2: for every 7-day window, whatever its start instant and
alignment, `_calculate_base_energy("server", ·)` returns exactly
`7 * (12*100 + 12*70) = 14280` Wh. -/
theorem base_energy_server_any_week_is_14280 (s : ℚ) :
    calcBaseEnergy "server" s (s + 7 * 86400) = 7 * (12 * 100 + 12 * 70) := by
  have h : s + 7 * 86400 = s + 604800 := by norm_num
  rw [h, calcBaseEnergy_server_week]
  norm_num

/-- C5: the method `_adjust_energy_for_events` never returns a negative energy,
for every base energy, resource type, event list and window: the source
ends with `max(0, adjusted_energy)`. -/
theorem adjusted_energy_nonneg (baseEnergy : ℚ) (rt : String) (events : List EventRec)
    (startT endT : ℚ) :
    0 ≤ adjustEnergyForEvents baseEnergy rt events startT endT :=
  le_max_left 0 _

/-- C8: a single `hardware_maintenance_stop` of 7200 s starting at any
production hour inside the 7-day server window suppresses exactly two
hours of production power: `14280 - 2*100 = 14080` Wh. -/
theorem server_week_one_stop_event_14080 (s t : ℚ)
    (h1 : s ≤ t) (h2 : t ≤ s + 604800)
    (h3 : 8 ≤ hourOf t) (h4 : hourOf t < 20) :
    adjustEnergyForEvents (calcBaseEnergy "server" s (s + 604800)) "server"
      [⟨"hardware_maintenance_stop", some 7200, TsParse.ok t, TsParse.missing⟩]
      s (s + 604800) = 14080 := by
  unfold adjustEnergyForEvents
  rw [calcBaseEnergy_server_week]
  rw [List.foldl_cons, List.foldl_nil,
    eventDelta_stop "server" s (s + 604800) t _ 7200 TsParse.missing
      (Or.inl (by decide)) (by simp) h1 h2]
  have hpow : eventPower "server" t = 100 := by
    unfold eventPower
    rw [if_neg (by decide), if_pos ⟨h3, h4⟩]
    decide
  rw [hpow]
  norm_num

/-- Witness for C8 at `s = 0`, `t = 28800` (hour of day 8). -/
theorem server_week_one_stop_event_14080_witness :
    (0 : ℚ) ≤ 28800 ∧ (28800 : ℚ) ≤ 0 + 604800 ∧
      8 ≤ hourOf 28800 ∧ hourOf 28800 < 20 ∧
      adjustEnergyForEvents (calcBaseEnergy "server" 0 (0 + 604800)) "server"
        [⟨"hardware_maintenance_stop", some 7200, TsParse.ok 28800, TsParse.missing⟩]
        0 (0 + 604800) = 14080 := by
  have hh : hourOf 28800 = 8 := by
    unfold hourOf
    norm_num
  refine ⟨by norm_num, by norm_num, by rw [hh], by rw [hh]; norm_num, ?_⟩
  exact server_week_one_stop_event_14080 0 28800 (by norm_num) (by norm_num)
    (by rw [hh]) (by rw [hh]; norm_num)

/-- C1 as amended: in `_adjust_energy_for_events`, two fully overlapping
stop-class events (same start instant, same duration) each subtract their
full `power * duration_hours` independently — a combined `-2.0` effect on
the shared time span, with no `-1.0` per-sub-interval clamp — and only
the whole-window total is clamped at `0`.  (The per-sub-interval clamp
`max(-1.0, modifier_sum)` exists only in the
`two_agents_version/agent_monitor.py` variant, not in this function.) -/
theorem adjust_double_stop_subtracts_twice (base : ℚ) (rt : String) (s e t : ℚ)
    (et : String) (d : ℤ)
    (hstop : strContains et "maintenance_stop" = true ∨ strContains et "failure" = true)
    (h1 : s ≤ t) (h2 : t ≤ e) :
    adjustEnergyForEvents base rt
        [⟨et, some d, TsParse.ok t, TsParse.missing⟩,
         ⟨et, some d, TsParse.ok t, TsParse.missing⟩] s e =
      max 0 (base - 2 * (eventPower rt t * ((d : ℚ) / 3600))) ∧
    adjustEnergyForEvents base rt
        [⟨et, some d, TsParse.ok t, TsParse.missing⟩] s e =
      max 0 (base - eventPower rt t * ((d : ℚ) / 3600)) := by
  have hδ := eventDelta_stop rt s e t et d TsParse.missing hstop (by simp) h1 h2
  unfold adjustEnergyForEvents
  rw [List.foldl_cons, List.foldl_cons, List.foldl_nil, List.foldl_cons, List.foldl_nil, hδ]
  constructor
  · congr 1
    ring
  · congr 1
    ring

/-- Witness for the amended C1 at concrete inputs. -/
theorem adjust_double_stop_subtracts_twice_witness :
    (strContains "hardware_maintenance_stop" "maintenance_stop" = true ∨
        strContains "hardware_maintenance_stop" "failure" = true) ∧
      (0 : ℚ) ≤ 28800 ∧ (28800 : ℚ) ≤ 604800 ∧
      adjustEnergyForEvents 14280 "server"
          [⟨"hardware_maintenance_stop", some 7200, TsParse.ok 28800, TsParse.missing⟩,
           ⟨"hardware_maintenance_stop", some 7200, TsParse.ok 28800, TsParse.missing⟩]
          0 604800 =
        max 0 (14280 - 2 * (eventPower "server" 28800 * ((7200 : ℚ) / 3600))) :=
  ⟨Or.inl (by decide), by norm_num, by norm_num,
    (adjust_double_stop_subtracts_twice 14280 "server" 0 604800 28800
      "hardware_maintenance_stop" 7200 (Or.inl (by decide)) (by norm_num) (by norm_num)).1⟩

/-- Counterexample to C1 as stated: with base energy `14280` (a server
week) and two fully overlapping `hardware_maintenance_stop` events of
2 production hours each, `_adjust_energy_for_events` returns
`14280 - 400 = 13880` — the shared span is suppressed twice (combined
modifier `-2.0`) — while a single such event returns `14080`; under the
claimed `-1.0` clamp both would be `14080`. -/
theorem claim1_no_subinterval_clamp_counterexample :
    adjustEnergyForEvents 14280 "server"
        [⟨"hardware_maintenance_stop", some 7200, TsParse.ok 28800, TsParse.missing⟩,
         ⟨"hardware_maintenance_stop", some 7200, TsParse.ok 28800, TsParse.missing⟩]
        0 604800 = 13880 ∧
    adjustEnergyForEvents 14280 "server"
        [⟨"hardware_maintenance_stop", some 7200, TsParse.ok 28800, TsParse.missing⟩]
        0 604800 = 14080 ∧
    (13880 : ℚ) ≠ 14080 := by
  have hh : hourOf 28800 = 8 := by
    unfold hourOf
    norm_num
  have hpow : eventPower "server" 28800 = 100 := by
    unfold eventPower
    rw [if_neg (by decide), if_pos (by rw [hh]; norm_num)]
    decide
  have hδ := eventDelta_stop "server" 0 604800 28800 "hardware_maintenance_stop" 7200
    TsParse.missing (Or.inl (by decide)) (by simp) (by norm_num) (by norm_num)
  rw [hpow] at hδ
  unfold adjustEnergyForEvents
  rw [List.foldl_cons, List.foldl_cons, List.foldl_nil, List.foldl_cons, List.foldl_nil, hδ]
  norm_num

/-! ## `EnergyCalculator.calculate_weekly_energy` -/

/-- One entry of the `events_data` mapping: resource type and events. -/
structure ResourceData where
  rtype : String
  events : List EventRec

/-- The per-type accumulation of `calculate_weekly_energy` for one
`PRODUCTION_INVENTORY` entry `(rt, count)`: base for the whole fleet of
the type, plus the per-resource deltas of the resources with recorded
events, plus (only when positive) base energy for the
`count - resources_with_events` remainder.  The window is
`[s, s + 7 days]` with `s` the computed `start_date`. -/
def typeTotal (s : ℚ) (ed : List (String × ResourceData)) (rt : String) (count : ℤ) : ℚ :=
  calcBaseEnergy rt s (s + 604800) * count
  + (ed.filter (fun r => r.2.rtype = rt)).foldl
      (fun acc r => acc + (adjustEnergyForEvents (calcBaseEnergy rt s (s + 604800)) rt
        r.2.events s (s + 604800) - calcBaseEnergy rt s (s + 604800))) 0
  + (if 0 < count - ((ed.filter (fun r => r.2.rtype = rt)).length : ℤ)
     then calcBaseEnergy rt s (s + 604800) *
       ((count - ((ed.filter (fun r => r.2.rtype = rt)).length : ℤ) : ℤ) : ℚ)
     else 0)

/-- Value `total_energy_wh` before presentation rounding: the sum of the
per-type accumulations in inventory order (the source accumulates
`total_energy_wh += total_adjusted_energy` in the same loop that fills
`energy_by_type`). -/
def weeklyTotal (s : ℚ) (ed : List (String × ResourceData)) : ℚ :=
  (inventoryList.map (fun p => typeTotal s ed p.1 p.2)).sum

/-- Python's `round(x, 2)` on the rational model: round to the nearest
multiple of `1/100`.  (`round` here rounds half up; Python rounds float
ties to even.  All statements below either avoid ties or are valid for
any tie-breaking rule.) -/
def round2 (x : ℚ) : ℚ := ((round (x * 100) : ℤ) : ℚ) / 100

/-- The reported `total_energy_wh` (rounded to 2 decimals). -/
def reportedTotal (s : ℚ) (ed : List (String × ResourceData)) : ℚ :=
  round2 (weeklyTotal s ed)

/-- Sum over the four types of the reported `energy_by_type` values
(each rounded to 2 decimals). -/
def reportedByTypeSum (s : ℚ) (ed : List (String × ResourceData)) : ℚ :=
  (inventoryList.map (fun p => round2 (typeTotal s ed p.1 p.2))).sum

theorem round2_err (x : ℚ) : |round2 x - x| ≤ 1 / 200 := by
  have h : |x * 100 - round (x * 100)| ≤ 1 / 2 := abs_sub_round (x * 100)
  rw [abs_sub_comm] at h
  have h2 : round2 x - x = (((round (x * 100) : ℤ) : ℚ) - x * 100) / 100 := by
    unfold round2
    ring
  rw [h2, abs_div]
  rw [show |(100 : ℚ)| = 100 by norm_num]
  linarith

/-- C7 as amended: the unrounded per-type totals sum to the unrounded
grand total by construction; after the 2-decimal presentation rounding,
the reported by-type values sum to the reported `total_energy_wh` to
within `1/40 = 0.025` Wh absolutely, for every events snapshot and
window start. -/
theorem reported_by_type_sum_close (s : ℚ) (ed : List (String × ResourceData)) :
    |reportedByTypeSum s ed - reportedTotal s ed| ≤ 1 / 40 := by
  unfold reportedByTypeSum reportedTotal weeklyTotal inventoryList
  simp only [List.map_cons, List.map_nil, List.sum_cons, List.sum_nil]
  have e1 := abs_le.mp (round2_err (typeTotal s ed "server" 10))
  have e2 := abs_le.mp (round2_err (typeTotal s ed "workstation" 20))
  have e3 := abs_le.mp (round2_err (typeTotal s ed "automate" 5))
  have e4 := abs_le.mp (round2_err (typeTotal s ed "internet_gateway" 1))
  have e5 := abs_le.mp (round2_err (typeTotal s ed "server" 10 +
    (typeTotal s ed "workstation" 20 + (typeTotal s ed "automate" 5 +
      (typeTotal s ed "internet_gateway" 1 + 0)))))
  rw [abs_le]
  constructor <;> linarith

/-! ### Counterexample input for the reported-value tolerance (C7) -/

theorem eventDelta_update_type (rt : String) (s e t : ℚ) (d : ℤ)
    (h1 : s ≤ t) (h2 : t ≤ e) :
    eventDelta rt s e ⟨"software_update", some d, TsParse.ok t, TsParse.missing⟩ =
      eventPower rt t * ((d : ℚ) / 3600) * (10 / 100) := by
  show (if t < s ∨ e < t then 0 else _) = _
  rw [if_neg (by push_neg; exact ⟨h1, h2⟩)]
  simp only
  rw [if_neg (by decide), if_neg (by decide), if_pos (by decide)]

theorem hourOf_28800 : hourOf 28800 = 8 := by
  unfold hourOf
  norm_num

theorem eventPower_prodHour (rt : String) (t : ℚ) (hrt : rt ≠ "internet_gateway")
    (h3 : 8 ≤ hourOf t) (h4 : hourOf t < 20) :
    eventPower rt t = prodWatts rt := by
  unfold eventPower
  rw [if_neg hrt, if_pos ⟨h3, h4⟩]

/-- A server fully stopped for the whole week: `514080 s = 142.8 h` of
production power, `100 * 142.8 = 14280` Wh saved. -/
def cexStopEv : EventRec :=
  ⟨"hardware_maintenance_stop", some 514080, TsParse.ok 28800, TsParse.missing⟩

/-- A tiny `software_update` event of `d` seconds at hour 8. -/
def cexUpdEv (d : ℤ) : EventRec :=
  ⟨"software_update", some d, TsParse.ok 28800, TsParse.missing⟩

/-- Events snapshot used against the reported-value tolerance: 40 fully
stopped servers plus one short update on a resource of each type. -/
def cexED : List (String × ResourceData) :=
  (List.range 40).map (fun i => ("stopped_server_" ++ Nat.repr i,
    ⟨"server", [cexStopEv]⟩)) ++
  [("upd_server", ⟨"server", [cexUpdEv 2]⟩),
   ("upd_workstation", ⟨"workstation", [cexUpdEv 4]⟩),
   ("upd_automate", ⟨"automate", [cexUpdEv 2]⟩),
   ("upd_gateway", ⟨"internet_gateway", [cexUpdEv 8]⟩)]

theorem cex_adjust_upd (rt : String) (d : ℤ) (base : ℚ)
    (hrt : rt ≠ "internet_gateway") (hd : 0 ≤ (d : ℚ)) (hb : 0 ≤ base) :
    adjustEnergyForEvents base rt [cexUpdEv d] 0 (0 + 604800) =
      base + prodWatts rt * ((d : ℚ) / 3600) * (10 / 100) := by
  unfold adjustEnergyForEvents cexUpdEv
  rw [List.foldl_cons, List.foldl_nil,
    eventDelta_update_type rt 0 (0 + 604800) 28800 d (by norm_num) (by norm_num),
    eventPower_prodHour rt 28800 hrt
      (by rw [hourOf_28800]) (by rw [hourOf_28800]; norm_num)]
  have hpw : 0 ≤ prodWatts rt := by
    unfold prodWatts
    split <;> norm_num
    split <;> norm_num
    split <;> norm_num
  rw [max_eq_right]
  positivity

theorem cex_adjust_stop14280 :
    adjustEnergyForEvents 14280 "server" [cexStopEv] 0 (0 + 604800) = 0 := by
  unfold adjustEnergyForEvents cexStopEv
  rw [List.foldl_cons, List.foldl_nil,
    eventDelta_stop "server" 0 (0 + 604800) 28800 _ 514080 TsParse.missing
      (Or.inl (by decide)) (by simp) (by norm_num) (by norm_num),
    eventPower_prodHour "server" 28800 (by decide)
      (by rw [hourOf_28800]) (by rw [hourOf_28800]; norm_num)]
  simp +decide only [prodWatts]
  norm_num


theorem foldl_adjust_const (base v : ℚ) (rt : String) (s e : ℚ)
    (l : List (String × ResourceData))
    (h : ∀ x ∈ l, adjustEnergyForEvents base rt x.2.events s e - base = v) :
    ∀ init : ℚ,
      l.foldl (fun acc r => acc +
        (adjustEnergyForEvents base rt r.2.events s e - base)) init
      = init + l.length * v := by
  induction l with
  | nil => intro init; simp
  | cons x xs ih =>
    intro init
    rw [List.foldl_cons, h x (List.mem_cons_self x xs),
      ih (fun y hy => h y (List.mem_cons_of_mem x hy)) (init + v), List.length_cons]
    push_cast
    ring

theorem cex_type_server : typeTotal 0 cexED "server" 10 = -428400 + 1 / 180 := by
  have hsf : List.filter (fun (r : String × ResourceData) => decide (r.2.rtype = "server"))
      ((List.range 40).map (fun i => ("stopped_server_" ++ Nat.repr i,
        (⟨"server", [cexStopEv]⟩ : ResourceData)))) =
      (List.range 40).map (fun i => ("stopped_server_" ++ Nat.repr i,
        (⟨"server", [cexStopEv]⟩ : ResourceData))) := by
    rw [List.filter_eq_self]
    intro a ha
    simp only [List.mem_map] at ha
    obtain ⟨i, _, rfl⟩ := ha
    rfl
  have htf : List.filter (fun (r : String × ResourceData) => decide (r.2.rtype = "server"))
      [("upd_server", ⟨"server", [cexUpdEv 2]⟩),
       ("upd_workstation", ⟨"workstation", [cexUpdEv 4]⟩),
       ("upd_automate", ⟨"automate", [cexUpdEv 2]⟩),
       ("upd_gateway", ⟨"internet_gateway", [cexUpdEv 8]⟩)] =
      [("upd_server", (⟨"server", [cexUpdEv 2]⟩ : ResourceData))] := rfl
  unfold typeTotal cexED
  rw [calcBaseEnergy_server_week, List.filter_append, hsf, htf]
  rw [List.foldl_append, List.foldl_cons, List.foldl_nil]
  rw [foldl_adjust_const 14280 (-14280) "server" 0 (0 + 604800) _ ?hconst 0]
  case hconst =>
    intro x hx
    simp only [List.mem_map] at hx
    obtain ⟨i, _, rfl⟩ := hx
    rw [cex_adjust_stop14280]
    norm_num
  rw [cex_adjust_upd "server" 2 14280 (by decide) (by norm_num) (by norm_num)]
  rw [List.length_append, List.length_map, List.length_range]
  simp +decide only [List.length_cons, List.length_nil, prodWatts]
  norm_num

theorem cex_adjust_upd_gw (d : ℤ) (base : ℚ) (hd : 0 ≤ (d : ℚ)) (hb : 0 ≤ base) :
    adjustEnergyForEvents base "internet_gateway" [cexUpdEv d] 0 (0 + 604800) =
      base + 50 * ((d : ℚ) / 3600) * (10 / 100) := by
  unfold adjustEnergyForEvents cexUpdEv
  rw [List.foldl_cons, List.foldl_nil,
    eventDelta_update_type "internet_gateway" 0 (0 + 604800) 28800 d
      (by norm_num) (by norm_num)]
  have hpw : eventPower "internet_gateway" 28800 = 50 := by
    unfold eventPower
    rw [if_pos rfl]
  rw [hpw, max_eq_right]
  positivity

theorem cex_stopmap_filter_nil (rt : String) (h : rt ≠ "server") :
    List.filter (fun (r : String × ResourceData) => decide (r.2.rtype = rt))
      ((List.range 40).map (fun i => ("stopped_server_" ++ Nat.repr i,
        (⟨"server", [cexStopEv]⟩ : ResourceData)))) = [] := by
  rw [List.filter_eq_nil_iff]
  intro a ha
  simp only [List.mem_map] at ha
  obtain ⟨i, _, rfl⟩ := ha
  simpa using fun hc => h hc.symm

theorem cex_type_ws : typeTotal 0 cexED "workstation" 20 = 196560 + 1 / 150 := by
  have htf : List.filter (fun (r : String × ResourceData) => decide (r.2.rtype = "workstation"))
      [("upd_server", ⟨"server", [cexUpdEv 2]⟩),
       ("upd_workstation", ⟨"workstation", [cexUpdEv 4]⟩),
       ("upd_automate", ⟨"automate", [cexUpdEv 2]⟩),
       ("upd_gateway", ⟨"internet_gateway", [cexUpdEv 8]⟩)] =
      [("upd_workstation", (⟨"workstation", [cexUpdEv 4]⟩ : ResourceData))] := rfl
  unfold typeTotal cexED
  rw [calcBaseEnergy_workstation_week, List.filter_append,
    cex_stopmap_filter_nil "workstation" (by decide), htf]
  rw [List.nil_append, List.foldl_cons, List.foldl_nil]
  rw [cex_adjust_upd "workstation" 4 5040 (by decide) (by norm_num) (by norm_num)]
  simp +decide only [List.length_cons, List.length_nil, prodWatts]
  norm_num

theorem cex_type_auto : typeTotal 0 cexED "automate" 5 = 226800 + 1 / 60 := by
  have htf : List.filter (fun (r : String × ResourceData) => decide (r.2.rtype = "automate"))
      [("upd_server", ⟨"server", [cexUpdEv 2]⟩),
       ("upd_workstation", ⟨"workstation", [cexUpdEv 4]⟩),
       ("upd_automate", ⟨"automate", [cexUpdEv 2]⟩),
       ("upd_gateway", ⟨"internet_gateway", [cexUpdEv 8]⟩)] =
      [("upd_automate", (⟨"automate", [cexUpdEv 2]⟩ : ResourceData))] := rfl
  unfold typeTotal cexED
  rw [calcBaseEnergy_automate_week, List.filter_append,
    cex_stopmap_filter_nil "automate" (by decide), htf]
  rw [List.nil_append, List.foldl_cons, List.foldl_nil]
  rw [cex_adjust_upd "automate" 2 25200 (by decide) (by norm_num) (by norm_num)]
  simp +decide only [List.length_cons, List.length_nil, prodWatts]
  norm_num

theorem cex_type_gw : typeTotal 0 cexED "internet_gateway" 1 = 8400 + 1 / 90 := by
  have htf : List.filter (fun (r : String × ResourceData) => decide (r.2.rtype = "internet_gateway"))
      [("upd_server", ⟨"server", [cexUpdEv 2]⟩),
       ("upd_workstation", ⟨"workstation", [cexUpdEv 4]⟩),
       ("upd_automate", ⟨"automate", [cexUpdEv 2]⟩),
       ("upd_gateway", ⟨"internet_gateway", [cexUpdEv 8]⟩)] =
      [("upd_gateway", (⟨"internet_gateway", [cexUpdEv 8]⟩ : ResourceData))] := rfl
  unfold typeTotal cexED
  rw [calcBaseEnergy_gateway_week, List.filter_append,
    cex_stopmap_filter_nil "internet_gateway" (by decide), htf]
  rw [List.nil_append, List.foldl_cons, List.foldl_nil]
  rw [cex_adjust_upd_gw 8 8400 (by norm_num) (by norm_num)]
  simp +decide only [List.length_cons, List.length_nil]
  norm_num

theorem cex_round2_server : round2 (-428400 + 1 / 180) = -42839999 / 100 := by
  unfold round2
  rw [round_eq]
  have h : ((-428400 + 1 / 180 : ℚ) * 100 + 1 / 2) = -42840000 + 19 / 18 := by ring
  rw [h]
  rw [show ⌊(-42840000 + 19 / 18 : ℚ)⌋ = -42839999 from by
    rw [Int.floor_eq_iff]
    constructor <;> norm_num]
  norm_num

theorem cex_round2_ws : round2 (196560 + 1 / 150) = 19656001 / 100 := by
  unfold round2
  rw [round_eq]
  have h : ((196560 + 1 / 150 : ℚ) * 100 + 1 / 2) = 19656000 + 7 / 6 := by ring
  rw [h]
  rw [show ⌊(19656000 + 7 / 6 : ℚ)⌋ = 19656001 from by
    rw [Int.floor_eq_iff]
    constructor <;> norm_num]
  norm_num

theorem cex_round2_auto : round2 (226800 + 1 / 60) = 22680002 / 100 := by
  unfold round2
  rw [round_eq]
  have h : ((226800 + 1 / 60 : ℚ) * 100 + 1 / 2) = 22680000 + 13 / 6 := by ring
  rw [h]
  rw [show ⌊(22680000 + 13 / 6 : ℚ)⌋ = 22680002 from by
    rw [Int.floor_eq_iff]
    constructor <;> norm_num]
  norm_num

theorem cex_round2_gw : round2 (8400 + 1 / 90) = 840001 / 100 := by
  unfold round2
  rw [round_eq]
  have h : ((8400 + 1 / 90 : ℚ) * 100 + 1 / 2) = 840000 + 29 / 18 := by ring
  rw [h]
  rw [show ⌊(840000 + 29 / 18 : ℚ)⌋ = 840001 from by
    rw [Int.floor_eq_iff]
    constructor <;> norm_num]
  norm_num

theorem cex_round2_total : round2 (3360 + 1 / 25) = 336004 / 100 := by
  unfold round2
  rw [round_eq]
  have h : ((3360 + 1 / 25 : ℚ) * 100 + 1 / 2) = 336004 + 1 / 2 := by ring
  rw [h]
  rw [show ⌊(336004 + 1 / 2 : ℚ)⌋ = 336004 from by
    rw [Int.floor_eq_iff]
    constructor <;> norm_num]
  norm_num

/-- Counterexample to C7 as stated: on this snapshot (40 fully stopped
servers plus one tiny update per type) the reported by-type values sum to
`3360.05` while the reported `total_energy_wh` is `3360.04`; the
difference `0.01` exceeds the claimed `1e-6` relative tolerance, whether
measured against either value or their maximum. -/
theorem claim7_reported_tolerance_counterexample :
    reportedByTypeSum 0 cexED - reportedTotal 0 cexED = 1 / 100 ∧
    1 / 1000000 * max |reportedByTypeSum 0 cexED| |reportedTotal 0 cexED| < 1 / 100 := by
  have hS : reportedByTypeSum 0 cexED = 336005 / 100 := by
    unfold reportedByTypeSum inventoryList
    simp only [List.map_cons, List.map_nil, List.sum_cons, List.sum_nil]
    rw [cex_type_server, cex_type_ws, cex_type_auto, cex_type_gw,
      cex_round2_server, cex_round2_ws, cex_round2_auto, cex_round2_gw]
    norm_num
  have hT : reportedTotal 0 cexED = 336004 / 100 := by
    unfold reportedTotal weeklyTotal inventoryList
    simp only [List.map_cons, List.map_nil, List.sum_cons, List.sum_nil]
    rw [cex_type_server, cex_type_ws, cex_type_auto, cex_type_gw]
    rw [show (-428400 + 1 / 180 + (196560 + 1 / 150 + (226800 + 1 / 60 + (8400 + 1 / 90 + 0))) : ℚ)
        = 3360 + 1 / 25 from by ring]
    exact cex_round2_total
  rw [hS, hT]
  refine ⟨by norm_num, ?_⟩
  rw [show |(336005 / 100 : ℚ)| = 336005 / 100 from abs_of_pos (by norm_num),
    show |(336004 / 100 : ℚ)| = 336004 / 100 from abs_of_pos (by norm_num),
    max_eq_left (by norm_num)]
  norm_num

/-! ## `LLMService.predict_failure_probability` -/

/-- The static severity table of the `except` branch
(`severity_map.get(event_type, 0.3)`). -/
def severityLookup (eventType : String) : ℚ :=
  if eventType = "hardware_failure" then 9 / 10
  else if eventType = "operating_system_failure" then 8 / 10
  else if eventType = "software_service_failure" then 6 / 10
  else if eventType = "cpu_overflow" then 5 / 10
  else if eventType = "hardware_maintenance_stop" then 2 / 10
  else if eventType = "software_maintenance_stop" then 1 / 10
  else if eventType = "software_update" then 1 / 10
  else if eventType = "operating_system_update" then 2 / 10
  else 3 / 10

/-- The eight keys of the severity table. -/
def severityKeys : List String :=
  ["hardware_failure", "operating_system_failure", "software_service_failure",
   "cpu_overflow", "hardware_maintenance_stop", "software_maintenance_stop",
   "software_update", "operating_system_update"]

/-- Source method `predict_failure_probability`, abstracted over the
outcome of its `try` block, covering exactly the runs of the source that
return a value: `parsed = some p` models a run in which `json.loads`
succeeded on the stripped response and
`float(result.get('probability', 0.5))` evaluated to `p` (including the
`0.5` default when the object has no `probability` field), and
`parsed = none` models a run in which one of the three caught exceptions
(`json.JSONDecodeError`, `ValueError`, `KeyError`) was raised.  Runs
that raise an exception outside that tuple — `AttributeError` when the
response parses to a non-dict JSON value, `TypeError` when
`float(None)` is reached — escape the call boundary and return nothing;
they are outside this abstraction and are modelled separately by
`predictTry` below. -/
def predictFailureProbability (parsed : Option ℚ) (eventType : String) : ℚ :=
  match parsed with
  | some p => max 0 (min 1 p)
  | none => severityLookup eventType

/-- On the runs that do take the `except` branch (one of the three
caught exceptions was raised), the prediction is the static severity
table: `hardware_failure ↦ 0.9`, `software_maintenance_stop ↦ 0.1`, and
any event type outside the table `↦ 0.3`.  This does not cover every
unparsable response: the uncaught error paths are modelled by
`predictTry` below. -/
theorem predict_parse_failure_uses_severity_table (eventType : String) :
    predictFailureProbability none eventType = severityLookup eventType ∧
    predictFailureProbability none "hardware_failure" = 9 / 10 ∧
    predictFailureProbability none "software_maintenance_stop" = 1 / 10 ∧
    (eventType ∉ severityKeys → predictFailureProbability none eventType = 3 / 10) := by
  refine ⟨rfl, by simp +decide [predictFailureProbability, severityLookup], by
    simp +decide [predictFailureProbability, severityLookup], ?_⟩
  intro h
  simp only [severityKeys, List.mem_cons, List.not_mem_nil, or_false, not_or] at h
  obtain ⟨h1, h2, h3, h4, h5, h6, h7, h8⟩ := h
  unfold predictFailureProbability severityLookup
  rw [if_neg h1, if_neg h2, if_neg h3, if_neg h4, if_neg h5, if_neg h6, if_neg h7, if_neg h8]

/-- Evaluation of the `except`-branch severity lookup at the unknown
event type `"disk_anomaly"`. -/
theorem predict_parse_failure_uses_severity_table_witness :
    "disk_anomaly" ∉ severityKeys ∧
      predictFailureProbability none "disk_anomaly" = 3 / 10 :=
  ⟨by decide, (predict_parse_failure_uses_severity_table "disk_anomaly").2.2.2 (by decide)⟩

/-- C10: the returned probability always lies in `[0, 1]`: a parseable
probability is clamped (`max(0.0, min(1.0, p))`) to the nearer bound
when out of range, and every severity-table fallback value is in
`[0, 1]`. -/
theorem predict_result_in_unit_interval (parsed : Option ℚ) (eventType : String) :
    0 ≤ predictFailureProbability parsed eventType ∧
    predictFailureProbability parsed eventType ≤ 1 ∧
    (∀ p, parsed = some p → 1 < p → predictFailureProbability parsed eventType = 1) ∧
    (∀ p, parsed = some p → p < 0 → predictFailureProbability parsed eventType = 0) := by
  cases parsed with
  | none =>
    refine ⟨?_, ?_, ?_, ?_⟩
    · unfold predictFailureProbability severityLookup
      split_ifs <;> norm_num
    · unfold predictFailureProbability severityLookup
      split_ifs <;> norm_num
    · intro p hp h1
      exact absurd hp (by simp)
    · intro p hp h0
      exact absurd hp (by simp)
  | some p =>
    refine ⟨le_max_left 0 _, ?_, ?_, ?_⟩
    · exact max_le (by norm_num) (min_le_left 1 p)
    · intro q hq h1
      have hpq : p = q := by injection hq
      subst hpq
      show max 0 (min 1 p) = 1
      rw [min_eq_left (le_of_lt h1), max_eq_right (by norm_num)]
    · intro q hq h0
      have hpq : p = q := by injection hq
      subst hpq
      show max 0 (min 1 p) = 0
      rw [min_eq_right (by linarith), max_eq_left (le_of_lt h0)]

/-- Witness for C10: an over-range parse clamps to 1, an under-range
parse clamps to 0. -/
theorem predict_result_in_unit_interval_witness :
    predictFailureProbability (some 5) "x" = 1 ∧
      predictFailureProbability (some (-3)) "y" = 0 :=
  ⟨(predict_result_in_unit_interval (some 5) "x").2.2.1 5 rfl (by norm_num),
   (predict_result_in_unit_interval (some (-3)) "y").2.2.2 (-3) rfl (by norm_num)⟩

/-! ### The un-abstracted `try` block of `predict_failure_probability`

The `except` tuple of the source is
`(json.JSONDecodeError, ValueError, KeyError)`.  The operations inside
the `try` block can, however, also raise `AttributeError`
(`result.get(...)` when `json.loads` returned a non-dict value) and
`TypeError` (`float(None)` when the `probability` field is JSON null);
neither is caught, so both escape the call boundary.  The model below
keeps these paths distinct. -/

/-- A parsed JSON value, as returned by `json.loads`. -/
inductive Json where
  | null : Json
  | bool : Bool → Json
  | num : ℚ → Json
  | str : String → Json
  | arr : List Json → Json
  | obj : List (String × Json) → Json

/-- Outcome of `json.loads(response)` after fence stripping: a
`JSONDecodeError`, or a parsed value. -/
inductive LoadOutcome where
  | decodeError : LoadOutcome
  | ok : Json → LoadOutcome

/-- Outcome of Python `float(x)` on a JSON value: a number, a
`ValueError`, or a `TypeError`. -/
inductive FloatOutcome where
  | ok : ℚ → FloatOutcome
  | valueError : FloatOutcome
  | typeError : FloatOutcome

/-- Python `float(x)` on a JSON value: numbers and booleans convert,
strings parse or raise `ValueError` (string-to-float parsing abstracted
by `strFloat`), and `None`, lists and dicts raise `TypeError`. -/
def floatOfJson (strFloat : String → Option ℚ) : Json → FloatOutcome
  | Json.num q => FloatOutcome.ok q
  | Json.bool b => FloatOutcome.ok (if b then 1 else 0)
  | Json.str s =>
    match strFloat s with
    | some q => FloatOutcome.ok q
    | none => FloatOutcome.valueError
  | Json.null => FloatOutcome.typeError
  | Json.arr _ => FloatOutcome.typeError
  | Json.obj _ => FloatOutcome.typeError

/-- Result of one `predict_failure_probability` call: a returned value,
or an exception escaping the call boundary. -/
inductive PredictOutcome where
  | ret : ℚ → PredictOutcome
  | uncaught : String → PredictOutcome

/-- The `try`/`except` of `predict_failure_probability` over the outcome
of `json.loads`: a `JSONDecodeError` or a `ValueError` lands in the
`except` branch (severity table); `result.get('probability', 0.5)` on a
non-dict raises `AttributeError` and `float` of a JSON null raises
`TypeError`, and neither is in the caught tuple. -/
def predictTry (strFloat : String → Option ℚ) (load : LoadOutcome)
    (eventType : String) : PredictOutcome :=
  match load with
  | LoadOutcome.decodeError => PredictOutcome.ret (severityLookup eventType)
  | LoadOutcome.ok v =>
    match v with
    | Json.obj fields =>
      let pv := ((fields.find? (fun f => f.1 = "probability")).map (fun f => f.2)).getD
        (Json.num (1 / 2))
      match floatOfJson strFloat pv with
      | FloatOutcome.ok p => PredictOutcome.ret (max 0 (min 1 p))
      | FloatOutcome.valueError => PredictOutcome.ret (severityLookup eventType)
      | FloatOutcome.typeError => PredictOutcome.uncaught "TypeError"
    | _ => PredictOutcome.uncaught "AttributeError"

/-- C9 as a code bug: the collaborator responses `"[1]"` and `"null"`
are valid JSON but not dicts, so `result.get` raises `AttributeError`
past the call boundary; a JSON-null `probability` reaches `float(None)`
and raises `TypeError`; and an object without a `probability` field
returns the clamped `0.5` default, not the severity value.  Only a
genuine `JSONDecodeError` (or `ValueError`/`KeyError`) reaches the
severity-table fallback the claim describes. -/
theorem claim9_uncaught_error_paths (eventType : String) (strFloat : String → Option ℚ) :
    predictTry strFloat (LoadOutcome.ok (Json.arr [Json.num 1])) eventType =
      PredictOutcome.uncaught "AttributeError" ∧
    predictTry strFloat (LoadOutcome.ok Json.null) eventType =
      PredictOutcome.uncaught "AttributeError" ∧
    predictTry strFloat (LoadOutcome.ok (Json.obj [("probability", Json.null)])) eventType =
      PredictOutcome.uncaught "TypeError" ∧
    predictTry strFloat (LoadOutcome.ok (Json.obj [("reasoning", Json.str "ok")])) eventType =
      PredictOutcome.ret (1 / 2) ∧
    predictTry strFloat LoadOutcome.decodeError eventType =
      PredictOutcome.ret (severityLookup eventType) := by
  refine ⟨rfl, rfl, rfl, ?_, rfl⟩
  show PredictOutcome.ret (max 0 (min 1 (1 / 2))) = PredictOutcome.ret (1 / 2)
  norm_num

/-! ## `LLMService._fallback_co2_advice` -/

/-- Python's `max(items, key=lambda x: x[1])` on a nonempty list: keeps
the current maximum, replacing it only on a strictly greater value, so
the first maximal item wins. -/
def maxByVal (m : String × ℚ) : List (String × ℚ) → String × ℚ
  | [] => m
  | y :: ys => maxByVal (if m.2 < y.2 then y else m) ys

/-- Source method `_fallback_co2_advice(resource_summary)`; the three inputs are the
`co2_by_resource_type` items (in insertion order), the
`resources_with_failures` list (only its truthiness is used) and
`total_co2_kg`.  Returns `advices[:3]`. -/
def fallbackCo2Advice (co2ByType : List (String × ℚ))
    (resourcesWithFailures : List String) (totalCo2 : ℚ) : List String :=
  let first :=
    match co2ByType with
    | [] =>
      ["Implement power management policies across all IT resources to reduce energy consumption during idle periods."]
    | x :: xs =>
      let maxType := maxByVal x xs
      if maxType.1 = "server" then
        ["Consider server virtualization and consolidation to reduce the number of physical servers, potentially reducing CO2 emissions by 20-30%."]
      else if maxType.1 = "automate" then
        ["Optimize automate scheduling to reduce unnecessary runtime during non-production hours, reducing energy consumption."]
      else if maxType.1 = "workstation" then
        ["Implement workstation power management policies to automatically shut down or hibernate workstations during non-business hours."]
      else []
  let second :=
    if resourcesWithFailures ≠ [] then
      ["Address high failure probability resources proactively to prevent unexpected downtime and optimize maintenance schedules, reducing overall energy waste."]
    else
      ["Regularly monitor and maintain IT resources to ensure optimal energy efficiency and prevent energy waste from degraded performance."]
  let third :=
    if 200 < totalCo2 then
      ["Consider migrating to renewable energy sources or implementing energy-efficient hardware upgrades to significantly reduce carbon footprint."]
    else
      ["Implement real-time energy monitoring to identify and address energy consumption anomalies and optimize resource utilization."]
  (first ++ second ++ third).take 3

/-- C3 as a code bug: when `internet_gateway` leads `co2_by_resource_type`,
the first `if/elif` chain of `_fallback_co2_advice` appends nothing, so
the fallback returns only 2 advice strings instead of the promised 3. -/
theorem fallback_advice_gateway_leader_gives_two :
    (fallbackCo2Advice
      [("server", 1), ("workstation", 1), ("automate", 1), ("internet_gateway", 10)]
      [] 10).length = 2 := by
  simp +decide [fallbackCo2Advice, maxByVal]

/-! ## `Database.add_event` -/

/-- One stored event dict: its optional `event_id`, optional `stored_at`,
and the rest of its payload (opaque for the store's logic). -/
structure DbEvent where
  eventId : Option String
  storedAt : Option String
  payload : String
deriving DecidableEq

/-- One resource record of the store. -/
structure DbResource where
  rtype : String
  events : List DbEvent
  createdAt : String
  updatedAt : String
deriving DecidableEq

/-- Sets `event['stored_at'] = datetime.now().isoformat()` if not present. -/
def setStoredAt (ev : DbEvent) (now : String) : DbEvent :=
  if ev.storedAt = none then { ev with storedAt := some now } else ev

/-- The in-place update loop of the `else` branch: replace the first
event whose `event_id` equals the incoming one. -/
def replaceFirstById (tid : Option String) (newEv : DbEvent) :
    List DbEvent → List DbEvent
  | [] => []
  | e :: rest =>
    if e.eventId = tid then newEv :: rest else e :: replaceFirstById tid newEv rest

/-- Lookup `self.data[rid]` on the keyed store (first matching key). -/
def lookupRes (db : List (String × DbResource)) (rid : String) : Option DbResource :=
  (db.find? (fun p => p.1 = rid)).map (fun p => p.2)

/-- Mutation of the resource stored under a key. -/
def updateRes (db : List (String × DbResource)) (rid : String)
    (f : DbResource → DbResource) : List (String × DbResource) :=
  db.map (fun p => if p.1 = rid then (p.1, f p.2) else p)

/-- The per-resource upsert of `add_event`: replace in place when an
event with the same `event_id` exists, append otherwise; `updated_at` is
bumped either way. -/
def upsertFn (ev1 : DbEvent) (now : String) (r : DbResource) : DbResource :=
  if r.events.any (fun e => e.eventId = ev1.eventId) then
    { r with events := replaceFirstById ev1.eventId ev1 r.events, updatedAt := now }
  else
    { r with events := r.events ++ [ev1], updatedAt := now }

/-- Source method `Database.add_event(resource_id, resource_type, event)` at instant
`now` (all `datetime.now().isoformat()` calls of one invocation are
modelled by the same string; their exact values are irrelevant here). -/
def addEvent (db : List (String × DbResource)) (rid rtype : String)
    (ev : DbEvent) (now : String) : List (String × DbResource) :=
  let db1 := if (lookupRes db rid).isSome then db
             else db ++ [(rid, ⟨rtype, [], now, now⟩)]
  updateRes db1 rid (upsertFn (setStoredAt ev now) now)

/-- Events stored for a resource (empty when the key is absent). -/
def eventsOf (db : List (String × DbResource)) (rid : String) : List DbEvent :=
  match lookupRes db rid with
  | some r => r.events
  | none => []

theorem replaceFirstById_length (tid : Option String) (newEv : DbEvent)
    (l : List DbEvent) : (replaceFirstById tid newEv l).length = l.length := by
  induction l with
  | nil => rfl
  | cons e rest ih =>
    unfold replaceFirstById
    split
    · rfl
    · simp [ih]

theorem replaceFirstById_ids (tid : Option String) (newEv : DbEvent)
    (hnew : newEv.eventId = tid) (l : List DbEvent) :
    (replaceFirstById tid newEv l).map (fun e => e.eventId) =
      l.map (fun e => e.eventId) := by
  induction l with
  | nil => rfl
  | cons e rest ih =>
    unfold replaceFirstById
    split
    · rename_i he
      simp only [List.map_cons, hnew, he]
    · simp [ih]

theorem lookupRes_cons (p : String × DbResource) (rest : List (String × DbResource))
    (rid : String) :
    lookupRes (p :: rest) rid = if p.1 = rid then some p.2 else lookupRes rest rid := by
  by_cases h : p.1 = rid
  · simp [lookupRes, List.find?_cons_of_pos, h]
  · simp [lookupRes, List.find?_cons_of_neg, h]

theorem lookupRes_updateRes_self (db : List (String × DbResource)) (rid : String)
    (f : DbResource → DbResource) :
    lookupRes (updateRes db rid f) rid = (lookupRes db rid).map f := by
  induction db with
  | nil => rfl
  | cons p rest ih =>
    unfold updateRes
    rw [List.map_cons]
    by_cases h : p.1 = rid
    · rw [if_pos h, lookupRes_cons, lookupRes_cons, if_pos h, if_pos h]
      rfl
    · rw [if_neg h, lookupRes_cons, lookupRes_cons, if_neg h, if_neg h]
      exact ih

theorem lookupRes_updateRes_other (db : List (String × DbResource)) (rid rid2 : String)
    (f : DbResource → DbResource) (h : rid2 ≠ rid) :
    lookupRes (updateRes db rid f) rid2 = lookupRes db rid2 := by
  induction db with
  | nil => rfl
  | cons p rest ih =>
    unfold updateRes
    rw [List.map_cons]
    by_cases hp : p.1 = rid
    · have hne : ¬(p.1 = rid2) := by rw [hp]; exact fun hc => h hc.symm
      rw [if_pos hp, lookupRes_cons, lookupRes_cons, if_neg hne, if_neg hne]
      exact ih
    · rw [if_neg hp, lookupRes_cons, lookupRes_cons]
      by_cases hq : p.1 = rid2
      · rw [if_pos hq, if_pos hq]
      · rw [if_neg hq, if_neg hq]
        exact ih

theorem lookupRes_append_self (db : List (String × DbResource)) (rid : String)
    (r : DbResource) (h : lookupRes db rid = none) :
    lookupRes (db ++ [(rid, r)]) rid = some r := by
  induction db with
  | nil => simp [lookupRes, List.find?]
  | cons p rest ih =>
    rw [List.cons_append, lookupRes_cons]
    rw [lookupRes_cons] at h
    by_cases hp : p.1 = rid
    · rw [if_pos hp] at h
      exact absurd h (by simp)
    · rw [if_neg hp] at h ⊢
      exact ih h

theorem lookupRes_append_other (db : List (String × DbResource)) (rid rid2 : String)
    (r : DbResource) (h : rid2 ≠ rid) :
    lookupRes (db ++ [(rid, r)]) rid2 = lookupRes db rid2 := by
  induction db with
  | nil =>
    simp [lookupRes, List.find?, show ¬(rid = rid2) from fun hc => h hc.symm]
  | cons p rest ih =>
    rw [List.cons_append, lookupRes_cons, lookupRes_cons]
    by_cases hp : p.1 = rid2
    · rw [if_pos hp, if_pos hp]
    · rw [if_neg hp, if_neg hp]
      exact ih

/-- C6: upserting an event whose `event_id` already exists in the
resource's list replaces it in place, leaving the stored event count
unchanged; and every `add_event` call preserves `event_id` uniqueness
within every resource's event list. -/
theorem add_event_upsert_invariants (db : List (String × DbResource)) (rid rtype : String)
    (ev : DbEvent) (now : String) :
    (((eventsOf db rid).any (fun e => e.eventId = (setStoredAt ev now).eventId)) = true →
      (eventsOf (addEvent db rid rtype ev now) rid).length = (eventsOf db rid).length) ∧
    (∀ rid2 : String, ((eventsOf db rid2).map (fun e => e.eventId)).Nodup →
      ((eventsOf (addEvent db rid rtype ev now) rid2).map (fun e => e.eventId)).Nodup) := by
  rcases hres : lookupRes db rid with _ | r
  · -- the resource key is new: a fresh record is created first
    have hnone : eventsOf db rid = [] := by unfold eventsOf; rw [hres]
    have had : addEvent db rid rtype ev now =
        updateRes (db ++ [(rid, ⟨rtype, [], now, now⟩)]) rid
          (upsertFn (setStoredAt ev now) now) := by
      unfold addEvent
      rw [hres]
      rfl
    have hafter : eventsOf (addEvent db rid rtype ev now) rid = [setStoredAt ev now] := by
      rw [had]
      unfold eventsOf
      rw [lookupRes_updateRes_self, lookupRes_append_self db rid _ hres]
      show (upsertFn (setStoredAt ev now) now ⟨rtype, [], now, now⟩).events = _
      unfold upsertFn
      simp
    constructor
    · intro hcontra
      rw [hnone] at hcontra
      simp at hcontra
    · intro rid2 hnd
      by_cases h2 : rid2 = rid
      · subst h2
        rw [hafter]
        simp
      · have heq : eventsOf (addEvent db rid rtype ev now) rid2 = eventsOf db rid2 := by
          rw [had]
          unfold eventsOf
          rw [lookupRes_updateRes_other _ _ _ _ h2, lookupRes_append_other _ _ _ _ h2]
        rw [heq]
        exact hnd
  · -- the resource exists
    have hev : eventsOf db rid = r.events := by unfold eventsOf; rw [hres]
    have had : addEvent db rid rtype ev now =
        updateRes db rid (upsertFn (setStoredAt ev now) now) := by
      unfold addEvent
      rw [hres]
      rfl
    have hafter : eventsOf (addEvent db rid rtype ev now) rid =
        (upsertFn (setStoredAt ev now) now r).events := by
      rw [had]
      unfold eventsOf
      rw [lookupRes_updateRes_self, hres]
      rfl
    constructor
    · intro hdup
      rw [hev] at hdup
      rw [hafter, hev]
      unfold upsertFn
      rw [if_pos hdup]
      exact replaceFirstById_length _ _ _
    · intro rid2 hnd
      by_cases h2 : rid2 = rid
      · subst h2
        rw [hafter]
        rw [hev] at hnd
        unfold upsertFn
        by_cases hany : r.events.any (fun e => e.eventId = (setStoredAt ev now).eventId) = true
        · rw [if_pos hany]
          show ((replaceFirstById _ _ r.events).map _).Nodup
          rw [replaceFirstById_ids _ _ rfl]
          exact hnd
        · rw [if_neg hany]
          show ((r.events ++ [setStoredAt ev now]).map _).Nodup
          rw [List.map_append, List.map_cons, List.map_nil, List.nodup_append]
          refine ⟨hnd, List.nodup_singleton _, ?_⟩
          intro a ha hb
          simp only [List.mem_singleton] at hb
          subst hb
          simp only [List.mem_map] at ha
          obtain ⟨e, he, heq⟩ := ha
          apply hany
          rw [List.any_eq_true]
          exact ⟨e, he, by simp [heq]⟩
      · have heq : eventsOf (addEvent db rid rtype ev now) rid2 = eventsOf db rid2 := by
          rw [had]
          unfold eventsOf
          rw [lookupRes_updateRes_other _ _ _ _ h2]
        rw [heq]
        exact hnd

/-- Witness for C6: a one-resource store holding event id `e1`,
upserting a new payload under the same id keeps the count at 1. -/
theorem add_event_upsert_invariants_witness :
    (((eventsOf [("r1", ⟨"server", [⟨some "e1", some "t0", "old"⟩], "c0", "u0"⟩)] "r1").any
        (fun e => e.eventId = (setStoredAt ⟨some "e1", none, "new"⟩ "now").eventId)) = true) ∧
    (eventsOf (addEvent [("r1", ⟨"server", [⟨some "e1", some "t0", "old"⟩], "c0", "u0"⟩)]
        "r1" "server" ⟨some "e1", none, "new"⟩ "now") "r1").length =
      (eventsOf [("r1", ⟨"server", [⟨some "e1", some "t0", "old"⟩], "c0", "u0"⟩)] "r1").length :=
  ⟨by decide,
    (add_event_upsert_invariants [("r1", ⟨"server", [⟨some "e1", some "t0", "old"⟩], "c0", "u0"⟩)]
      "r1" "server" ⟨some "e1", none, "new"⟩ "now").1 (by decide)⟩

/-! ## `ReportGenerator.generate_textual_report`: inventory reconciliation

Synthesized identifiers are `f"{resource_type}_{counter}"`, skipping any
identifier already present.  Freshness of the chosen identifier needs
the injectivity of `Nat.repr`, proved here by building a decimal decoder
that is a left inverse to `Nat.toDigitsCore`. -/

/-- Decimal value of one digit character. -/
def decChar (c : Char) : ℕ := c.toNat - 48

/-- Left fold decoding a most-significant-first digit string. -/
def decodeL : ℕ → List Char → ℕ
  | acc, [] => acc
  | acc, c :: rest => decodeL (acc * 10 + decChar c) rest

theorem decChar_digitChar (n : ℕ) (h : n < 10) : decChar (Nat.digitChar n) = n := by
  interval_cases n <;> rfl

theorem decodeL_toDigitsCore (f : ℕ) :
    ∀ (n : ℕ) (l : List Char) (acc : ℕ), n < 10 ^ (f + 1) →
    ∃ P : ℕ, decodeL acc (Nat.toDigitsCore 10 (f + 1) n l) = decodeL (acc * P + n) l ∧
      n < P := by
  induction f with
  | zero =>
    intro n l acc h
    have h10 : n < 10 := by simpa using h
    have hdiv : n / 10 = 0 := Nat.div_eq_of_lt h10
    refine ⟨10, ?_, h10⟩
    show decodeL acc (if n / 10 = 0 then Nat.digitChar (n % 10) :: l
      else Nat.toDigitsCore 10 0 (n / 10) (Nat.digitChar (n % 10) :: l)) = _
    rw [if_pos hdiv]
    show decodeL (acc * 10 + decChar (Nat.digitChar (n % 10))) l = decodeL (acc * 10 + n) l
    rw [Nat.mod_eq_of_lt h10, decChar_digitChar n h10]
  | succ f ih =>
    intro n l acc h
    by_cases hd : n / 10 = 0
    · have h10 : n < 10 := by omega
      refine ⟨10, ?_, h10⟩
      show decodeL acc (if n / 10 = 0 then Nat.digitChar (n % 10) :: l
        else Nat.toDigitsCore 10 (f + 1) (n / 10) (Nat.digitChar (n % 10) :: l)) = _
      rw [if_pos hd]
      show decodeL (acc * 10 + decChar (Nat.digitChar (n % 10))) l = decodeL (acc * 10 + n) l
      rw [Nat.mod_eq_of_lt h10, decChar_digitChar n h10]
    · have hlt : n / 10 < 10 ^ (f + 1) := by
        rw [Nat.div_lt_iff_lt_mul (by norm_num : 0 < 10)]
        calc n < 10 ^ (f + 1 + 1) := h
        _ = 10 ^ (f + 1) * 10 := by rw [pow_succ]
      obtain ⟨P, hP, hnP⟩ := ih (n / 10) (Nat.digitChar (n % 10) :: l) acc hlt
      have hm : n % 10 < 10 := Nat.mod_lt n (by norm_num)
      refine ⟨P * 10, ?_, ?_⟩
      · show decodeL acc (if n / 10 = 0 then Nat.digitChar (n % 10) :: l
          else Nat.toDigitsCore 10 (f + 1) (n / 10) (Nat.digitChar (n % 10) :: l)) = _
        rw [if_neg hd, hP]
        show decodeL ((acc * P + n / 10) * 10 + decChar (Nat.digitChar (n % 10))) l = _
        rw [decChar_digitChar _ hm]
        have harith : (acc * P + n / 10) * 10 + n % 10 = acc * (P * 10) + n := by
          have := Nat.div_add_mod n 10
          ring_nf
          omega
        rw [harith]
      · have := Nat.div_add_mod n 10
        have h1 : n / 10 + 1 ≤ P := hnP
        calc n = 10 * (n / 10) + n % 10 := (Nat.div_add_mod n 10).symm
        _ < 10 * (n / 10) + 10 := by omega
        _ = 10 * (n / 10 + 1) := by ring
        _ ≤ 10 * P := by omega
        _ = P * 10 := by ring

theorem decodeL_toDigits (n : ℕ) : decodeL 0 (Nat.toDigits 10 n) = n := by
  have hbound : n < 10 ^ (n + 1) := by
    calc n < 10 ^ n := Nat.lt_pow_self (by norm_num) n
    _ ≤ 10 ^ (n + 1) := Nat.pow_le_pow_right (by norm_num) (Nat.le_succ n)
  obtain ⟨P, hP, _⟩ := decodeL_toDigitsCore n n [] 0 hbound
  show decodeL 0 (Nat.toDigitsCore 10 (n + 1) n []) = n
  rw [hP]
  show 0 * P + n = n
  omega

theorem natRepr_inj (a b : ℕ) (h : Nat.repr a = Nat.repr b) : a = b := by
  have hd : Nat.toDigits 10 a = Nat.toDigits 10 b := congrArg String.data h
  rw [← decodeL_toDigits a, ← decodeL_toDigits b, hd]

/-- Identifier `f"{resource_type}_{counter}"`. -/
def mkSynthId (rt : String) (n : ℕ) : String := rt ++ "_" ++ Nat.repr n

theorem mkSynthId_inj (rt : String) (a b : ℕ)
    (h : mkSynthId rt a = mkSynthId rt b) : a = b := by
  unfold mkSynthId at h
  have hd := congrArg String.data h
  simp only [String.data_append] at hd
  have hr : (Nat.repr a).data = (Nat.repr b).data := List.append_cancel_left hd
  exact natRepr_inj a b (by
    have : Nat.repr a = Nat.repr b := by
      cases ha : Nat.repr a with
      | mk da =>
        cases hb : Nat.repr b with
        | mk dbs =>
          rw [ha, hb] at hr
          simp only at hr
          rw [hr]
    exact this)

/-- Pigeonhole: among `ex.length + 1` consecutive candidate identifiers
at least one is not in `ex`. -/
theorem exists_free_id (rt : String) (ex : List String) (c : ℕ) :
    ∃ k, k < ex.length + 1 ∧ mkSynthId rt (c + k) ∉ ex := by
  by_contra hcon
  push_neg at hcon
  have hsub : (Finset.range (ex.length + 1)).image (fun k => mkSynthId rt (c + k)) ⊆
      ex.toFinset := by
    intro x hx
    simp only [Finset.mem_image] at hx
    obtain ⟨k, hk, rfl⟩ := hx
    rw [List.mem_toFinset]
    exact hcon k (Finset.mem_range.mp hk)
  have hcard := Finset.card_le_card hsub
  rw [Finset.card_image_of_injOn (fun i _ j _ hij => by
    have := mkSynthId_inj rt (c + i) (c + j) hij
    omega)] at hcard
  rw [Finset.card_range] at hcard
  have := List.toFinset_card_le ex
  omega

/-- The `while True` search of the synthesizer, with enough fuel. -/
def findFree (rt : String) (ex : List String) : ℕ → ℕ → ℕ
  | c, 0 => c
  | c, fuel + 1 => if mkSynthId rt c ∈ ex then findFree rt ex (c + 1) fuel else c

theorem findFree_spec (rt : String) (ex : List String) :
    ∀ (fuel c : ℕ), (∃ k, k < fuel ∧ mkSynthId rt (c + k) ∉ ex) →
      mkSynthId rt (findFree rt ex c fuel) ∉ ex := by
  intro fuel
  induction fuel with
  | zero =>
    intro c hex
    obtain ⟨k, hk, _⟩ := hex
    omega
  | succ fuel ih =>
    intro c hex
    obtain ⟨k, hk, hfree⟩ := hex
    show ¬(mkSynthId rt (if mkSynthId rt c ∈ ex then findFree rt ex (c + 1) fuel else c) ∈ ex)
    by_cases hc : mkSynthId rt c ∈ ex
    · rw [if_pos hc]
      apply ih
      cases k with
      | zero => exact absurd (by simpa using hfree) (by simp [hc])
      | succ k =>
        refine ⟨k, by omega, ?_⟩
        have : c + 1 + k = c + (k + 1) := by omega
        rw [this]
        exact hfree
    · rw [if_neg hc]
      exact hc

theorem findFree_free (rt : String) (ex : List String) (c : ℕ) :
    mkSynthId rt (findFree rt ex c (ex.length + 1)) ∉ ex :=
  findFree_spec rt ex (ex.length + 1) c (exists_free_id rt ex c)

/-- The synthesis loop for one resource type: produce `m` fresh
identifiers starting from `counter`, threading the `existing_ids` set
(returned ids in order, final existing set). -/
def synthRun (rt : String) : List String → ℕ → ℕ → List String × List String
  | ex, _, 0 => ([], ex)
  | ex, c, m + 1 =>
    let k := findFree rt ex c (ex.length + 1)
    let rest := synthRun rt (mkSynthId rt k :: ex) (k + 1) m
    (mkSynthId rt k :: rest.1, rest.2)

theorem synthRun_length (rt : String) :
    ∀ (m : ℕ) (ex : List String) (c : ℕ), (synthRun rt ex c m).1.length = m := by
  intro m
  induction m with
  | zero => intro ex c; rfl
  | succ m ih =>
    intro ex c
    show (mkSynthId rt _ :: (synthRun rt _ _ m).1).length = m + 1
    rw [List.length_cons, ih]

theorem synthRun_ex (rt : String) :
    ∀ (m : ℕ) (ex : List String) (c : ℕ),
      (synthRun rt ex c m).2 = (synthRun rt ex c m).1.reverse ++ ex := by
  intro m
  induction m with
  | zero => intro ex c; rfl
  | succ m ih =>
    intro ex c
    show (synthRun rt (mkSynthId rt _ :: ex) _ m).2 = _
    rw [ih]
    show _ = (mkSynthId rt _ :: (synthRun rt (mkSynthId rt _ :: ex) _ m).1).reverse ++ ex
    rw [List.reverse_cons]
    simp

theorem synthRun_fresh (rt : String) :
    ∀ (m : ℕ) (ex : List String) (c : ℕ),
      (∀ i ∈ (synthRun rt ex c m).1, i ∉ ex) ∧ (synthRun rt ex c m).1.Nodup := by
  intro m
  induction m with
  | zero => intro ex c; exact ⟨fun i hi => absurd hi (List.not_mem_nil i), List.nodup_nil⟩
  | succ m ih =>
    intro ex c
    set k := findFree rt ex c (ex.length + 1) with hk
    have hkfree : mkSynthId rt k ∉ ex := findFree_free rt ex c
    obtain ⟨ihf, ihn⟩ := ih (mkSynthId rt k :: ex) (k + 1)
    constructor
    · intro i hi
      rw [show (synthRun rt ex c (m + 1)).1 =
        mkSynthId rt k :: (synthRun rt (mkSynthId rt k :: ex) (k + 1) m).1 from rfl] at hi
      rcases List.mem_cons.mp hi with rfl | hi2
      · exact hkfree
      · intro hmem
        exact ihf i hi2 (List.mem_cons_of_mem _ hmem)
    · rw [show (synthRun rt ex c (m + 1)).1 =
        mkSynthId rt k :: (synthRun rt (mkSynthId rt k :: ex) (k + 1) m).1 from rfl]
      refine List.Nodup.cons ?_ ihn
      intro hmem
      exact ihf _ hmem (List.mem_cons_self _ _)

/-- One inventory entry of the reconciliation loop of
`generate_textual_report` (lines 188-222): count the resources of the
type present in the store snapshot, and when the configured count
exceeds it, synthesize the shortfall with fresh identifiers.  The state
is `(details-so-far as (id, type) pairs, existing_ids)`.  (Only the
identifier/type structure is modelled; the energy and probability fields
of each detail entry do not affect membership or cardinality, and the
final sort by `(type, -co2)` permutes the list without changing them.) -/
def detailStep (db : List (String × DbResource))
    (st : List (String × String) × List String) (p : String × ℤ) :
    List (String × String) × List String :=
  let withE := ((db.filter (fun r => r.2.rtype = p.1)).length : ℤ)
  if 0 < p.2 - withE then
    let res := synthRun p.1 st.2 1 (p.2 - withE).toNat
    (st.1 ++ res.1.map (fun i => (i, p.1)), res.2)
  else st

/-- The `(id, type)` projection of `resource_details` as reconciled by
`generate_textual_report`: all resources of the store snapshot first, in
order, then per inventory type the synthesized shortfall. -/
def detailIds (db : List (String × DbResource)) : List (String × String) :=
  (inventoryList.foldl (detailStep db)
    (db.map (fun r => (r.1, r.2.rtype)), db.map (fun r => r.1))).1

theorem detailStep_countP (db : List (String × DbResource))
    (st : List (String × String) × List String) (p : String × ℤ) (rt : String) :
    ((detailStep db st p).1).countP (fun d => d.2 = rt) =
      st.1.countP (fun d => d.2 = rt) +
      (if p.1 = rt then (p.2 - ((db.filter (fun r => r.2.rtype = p.1)).length : ℤ)).toNat
       else 0) := by
  unfold detailStep
  by_cases hneed : 0 < p.2 - ((db.filter (fun r => r.2.rtype = p.1)).length : ℤ)
  · rw [if_pos hneed]
    show (st.1 ++ _).countP _ = _
    rw [List.countP_append]
    congr 1
    rw [List.countP_map]
    by_cases hrt : p.1 = rt
    · rw [if_pos hrt, List.countP_eq_length.mpr (fun i _ => by simpa using hrt)]
      exact synthRun_length p.1 _ st.2 1
    · rw [if_neg hrt, List.countP_eq_zero.mpr (fun i _ => by simpa using hrt)]
  · rw [if_neg hneed]
    have h0 : (p.2 - ((db.filter (fun r => r.2.rtype = p.1)).length : ℤ)).toNat = 0 :=
      Int.toNat_of_nonpos (by omega)
    rw [h0]
    simp

theorem detailStep_mem (db : List (String × DbResource))
    (st : List (String × String) × List String) (p : String × ℤ)
    (d : String × String) (hd : d ∈ st.1) : d ∈ (detailStep db st p).1 := by
  unfold detailStep
  by_cases hneed : 0 < p.2 - ((db.filter (fun r => r.2.rtype = p.1)).length : ℤ)
  · rw [if_pos hneed]
    exact List.mem_append_left _ hd
  · rw [if_neg hneed]
    exact hd

/-- Invariant carried through the reconciliation fold: every detail
identifier is tracked in `existing_ids`, and the detail identifiers are
pairwise distinct. -/
def ReconInv (st : List (String × String) × List String) : Prop :=
  (∀ d ∈ st.1, d.1 ∈ st.2) ∧ (st.1.map (fun d => d.1)).Nodup

theorem detailStep_inv (db : List (String × DbResource))
    (st : List (String × String) × List String) (p : String × ℤ)
    (h : ReconInv st) : ReconInv (detailStep db st p) := by
  obtain ⟨htrack, hnd⟩ := h
  unfold detailStep
  by_cases hneed : 0 < p.2 - ((db.filter (fun r => r.2.rtype = p.1)).length : ℤ)
  · rw [if_pos hneed]
    set m := (p.2 - ((db.filter (fun r => r.2.rtype = p.1)).length : ℤ)).toNat with hm
    obtain ⟨hfresh, hndnew⟩ := synthRun_fresh p.1 m st.2 1
    have hex := synthRun_ex p.1 m st.2 1
    constructor
    · intro d hd
      rcases List.mem_append.mp hd with hd1 | hd2
      · show d.1 ∈ (synthRun p.1 st.2 1 m).2
        rw [hex]
        exact List.mem_append_right _ (htrack d hd1)
      · simp only [List.mem_map] at hd2
        obtain ⟨i, hi, rfl⟩ := hd2
        show i ∈ (synthRun p.1 st.2 1 m).2
        rw [hex]
        exact List.mem_append_left _ (List.mem_reverse.mpr hi)
    · show ((st.1 ++ _).map _).Nodup
      rw [List.map_append, List.nodup_append]
      refine ⟨hnd, ?_, ?_⟩
      · rw [List.map_map]
        have : ((fun d : String × String => d.1) ∘ fun i => (i, p.1)) = id := rfl
        rw [this, List.map_id]
        exact hndnew
      · intro a ha hb
        rw [List.map_map] at hb
        have hcomp : ((fun d : String × String => d.1) ∘ fun i => (i, p.1)) = id := rfl
        rw [hcomp, List.map_id] at hb
        simp only [List.mem_map] at ha
        obtain ⟨d, hd, rfl⟩ := ha
        exact hfresh _ hb (htrack d hd)
  · rw [if_neg hneed]
    exact ⟨htrack, hnd⟩

theorem foldl_detailStep_inv (db : List (String × DbResource))
    (inv : List (String × ℤ)) (st : List (String × String) × List String)
    (h : ReconInv st) : ReconInv (inv.foldl (detailStep db) st) := by
  induction inv generalizing st with
  | nil => exact h
  | cons p rest ih => exact ih _ (detailStep_inv db st p h)

theorem foldl_detailStep_mem (db : List (String × DbResource))
    (inv : List (String × ℤ)) (st : List (String × String) × List String)
    (d : String × String) (hd : d ∈ st.1) : d ∈ (inv.foldl (detailStep db) st).1 := by
  induction inv generalizing st with
  | nil => exact hd
  | cons p rest ih => exact ih _ (detailStep_mem db st p d hd)

theorem detailIds_countP (db : List (String × DbResource)) (rt : String) :
    (detailIds db).countP (fun d => d.2 = rt) =
      db.countP (fun r => r.2.rtype = rt)
      + (if "server" = rt then
          ((10 : ℤ) - ((db.filter (fun r => r.2.rtype = "server")).length : ℤ)).toNat else 0)
      + (if "workstation" = rt then
          ((20 : ℤ) - ((db.filter (fun r => r.2.rtype = "workstation")).length : ℤ)).toNat else 0)
      + (if "automate" = rt then
          ((5 : ℤ) - ((db.filter (fun r => r.2.rtype = "automate")).length : ℤ)).toNat else 0)
      + (if "internet_gateway" = rt then
          ((1 : ℤ) - ((db.filter (fun r => r.2.rtype = "internet_gateway")).length : ℤ)).toNat
         else 0) := by
  show ((detailStep db (detailStep db (detailStep db (detailStep db
      (db.map (fun r => (r.1, r.2.rtype)), db.map (fun r => r.1))
      ("server", 10)) ("workstation", 20)) ("automate", 5)) ("internet_gateway", 1)).1).countP
      (fun d => d.2 = rt) = _
  rw [detailStep_countP, detailStep_countP, detailStep_countP, detailStep_countP,
    List.countP_map]
  rfl

/-- C4 as amended: for every store snapshot with distinct resource keys:
per type, the reconciled detail list has cardinality
`max(fleet_count, historical_count)` — exactly the fleet count whenever
the historical resources do not exceed it; every historical resource is
retained (nothing dropped); and all detail identifiers are pairwise
distinct (nothing represented twice).  When historical resources of a
type exceed the fleet count the function does not fail: it keeps them
all and synthesizes none. -/
theorem reconcile_inventory (db : List (String × DbResource))
    (hkeys : (db.map (fun r => r.1)).Nodup) :
    ((((detailIds db).filter (fun d => d.2 = "server")).length : ℤ) =
        max 10 ((db.filter (fun r => r.2.rtype = "server")).length : ℤ)) ∧
    ((((detailIds db).filter (fun d => d.2 = "workstation")).length : ℤ) =
        max 20 ((db.filter (fun r => r.2.rtype = "workstation")).length : ℤ)) ∧
    ((((detailIds db).filter (fun d => d.2 = "automate")).length : ℤ) =
        max 5 ((db.filter (fun r => r.2.rtype = "automate")).length : ℤ)) ∧
    ((((detailIds db).filter (fun d => d.2 = "internet_gateway")).length : ℤ) =
        max 1 ((db.filter (fun r => r.2.rtype = "internet_gateway")).length : ℤ)) ∧
    (∀ r ∈ db, (r.1, r.2.rtype) ∈ detailIds db) ∧
    ((detailIds db).map (fun d => d.1)).Nodup := by
  have hcount : ∀ rt : String,
      ((detailIds db).filter (fun d => d.2 = rt)).length =
        (detailIds db).countP (fun d => d.2 = rt) :=
    fun rt => (List.countP_eq_length_filter _ _).symm
  have hbase : ∀ rt : String,
      db.countP (fun r => r.2.rtype = rt) = (db.filter (fun r => r.2.rtype = rt)).length :=
    fun rt => List.countP_eq_length_filter _ _
  refine ⟨?_, ?_, ?_, ?_, ?_, ?_⟩
  · have h := detailIds_countP db "server"
    rw [if_pos rfl, if_neg (by decide), if_neg (by decide), if_neg (by decide)] at h
    rw [hcount, h, hbase]
    push_cast
    omega
  · have h := detailIds_countP db "workstation"
    rw [if_neg (by decide), if_pos rfl, if_neg (by decide), if_neg (by decide)] at h
    rw [hcount, h, hbase]
    push_cast
    omega
  · have h := detailIds_countP db "automate"
    rw [if_neg (by decide), if_neg (by decide), if_pos rfl, if_neg (by decide)] at h
    rw [hcount, h, hbase]
    push_cast
    omega
  · have h := detailIds_countP db "internet_gateway"
    rw [if_neg (by decide), if_neg (by decide), if_neg (by decide), if_pos rfl] at h
    rw [hcount, h, hbase]
    push_cast
    omega
  · intro r hr
    apply foldl_detailStep_mem
    exact List.mem_map.mpr ⟨r, hr, rfl⟩
  · have hinv : ReconInv (db.map (fun r => (r.1, r.2.rtype)), db.map (fun r => r.1)) := by
      constructor
      · intro d hd
        simp only [List.mem_map] at hd
        obtain ⟨r, hr, rfl⟩ := hd
        exact List.mem_map.mpr ⟨r, hr, rfl⟩
      · rw [List.map_map]
        exact hkeys
    exact (foldl_detailStep_inv db inventoryList _ hinv).2

/-- Witness for the amended C4 on a one-server snapshot. -/
theorem reconcile_inventory_witness :
    (([("srv_x", (⟨"server", [], "c", "u"⟩ : DbResource))].map (fun r => r.1)).Nodup) ∧
    (((detailIds [("srv_x", ⟨"server", [], "c", "u"⟩)]).filter
        (fun d => d.2 = "server")).length : ℤ) =
      max 10
        (([("srv_x", (⟨"server", [], "c", "u"⟩ : DbResource))].filter
          (fun r => r.2.rtype = "server")).length : ℤ) :=
  ⟨by decide, (reconcile_inventory [("srv_x", ⟨"server", [], "c", "u"⟩)] (by decide)).1⟩

/-- Counterexample to C4 as stated: two historical `internet_gateway`
resources against a configured fleet of 1.  The reconciliation neither
fails loudly nor truncates: it returns a detail list containing both
(per-type cardinality 2 ≠ 1), synthesizing none. -/
theorem claim4_exceeding_fleet_counterexample :
    ((detailIds [("gw_a", ⟨"internet_gateway", [], "c", "u"⟩),
        ("gw_b", ⟨"internet_gateway", [], "c", "u"⟩)]).filter
      (fun d => d.2 = "internet_gateway")).length = 2 ∧ (2 : ℕ) ≠ 1 := by
  constructor
  · decide
  · decide
